import Mathlib

/-!
Verification of the connector layer of `coding_agent_session_search`.

The development shallowly embeds the four per-agent connectors present in the
repository (`src/connectors/gemini.rs`, `chatgpt.rs`, `codebuff.rs`,
`opencode.rs`).  JSON values are modelled by the inductive `J` below, with
numbers modelled as integers (the claims under study never depend on
float-specific rounding, only on ordering and scaling, which integer
arithmetic models faithfully).  Filesystem reads are modelled by lists of
`MFile` records carrying an mtime and a read/parse outcome; a Rust `panic!`
(e.g. byte-slicing a string off a UTF-8 boundary) is modelled by `Option`,
with `none` denoting the panic.

The shared connector utilities (`file_modified_since`, `parse_timestamp`,
`flatten_content`) live in `src/connectors/mod.rs`, which is not part of the
provided sources; they are modelled from the specification, as marked on each
definition.
-/

/-- Byte length of a string under UTF-8, as Rust `str::len`. -/
def byteLen (s : String) : Nat :=
  (s.data.map Char.utf8Size).sum

/-- Greedy prefix of a character list fitting in a byte budget.  This is the
result of slicing at the largest UTF-8 character boundary at or before `n`
bytes, as computed by the back-off loop in `codebuff.rs`. -/
def takeBytes : List Char → Nat → List Char
  | [], _ => []
  | c :: rest, n => if c.utf8Size ≤ n then c :: takeBytes rest (n - c.utf8Size) else []

/-- String version of `takeBytes`. -/
def takeBytesStr (s : String) (n : Nat) : String :=
  String.mk (takeBytes s.data n)

/-- Rust byte slicing `&s[..n]`: defined only when `n` falls on a UTF-8
character boundary (and `n ≤ s.len()`); `none` models the panic. -/
def rustSliceTo (s : String) (n : Nat) : Option String :=
  (go s.data n).map String.mk
where
  go : List Char → Nat → Option (List Char)
    | _, 0 => some []
    | [], _ + 1 => none
    | c :: rest, n + 1 =>
      if c.utf8Size ≤ n + 1 then
        (go rest (n + 1 - c.utf8Size)).map (c :: ·)
      else
        none

/-- `[0, 1, ..., n-1]` as integers (the shape of a dense `idx` column). -/
def intRange (n : Nat) : List Int :=
  (List.range n).map fun i : Nat => (i : Int)

mutual
/-- JSON values as handled by `serde_json::Value` in the connectors.  Numbers
are modelled as integers; object fields are kept in their stored order. -/
inductive J where
  | null : J
  | bool : Bool → J
  | num : Int → J
  | str : String → J
  | arr : JList → J
  | obj : JFields → J

/-- Children of a JSON array. -/
inductive JList where
  | nil : JList
  | cons : J → JList → JList

/-- Fields of a JSON object. -/
inductive JFields where
  | fnil : JFields
  | fcons : String → J → JFields → JFields
end

/-- Convert array children to an ordinary list. -/
def JList.toList : JList → List J
  | .nil => []
  | .cons x xs => x :: xs.toList

/-- Build array children from an ordinary list. -/
def JList.ofList : List J → JList
  | [] => .nil
  | x :: xs => .cons x (JList.ofList xs)

/-- Object fields as an ordinary association list. -/
def JFields.toPairs : JFields → List (String × J)
  | .fnil => []
  | .fcons k v fs => (k, v) :: fs.toPairs

/-- Build object fields from an ordinary association list. -/
def JFields.ofPairs : List (String × J) → JFields
  | [] => .fnil
  | (k, v) :: fs => .fcons k v (JFields.ofPairs fs)

/-- First field with the given key, as `serde_json::Value::get`. -/
def JFields.lookup (k : String) : JFields → Option J
  | .fnil => none
  | .fcons k' v fs => if k' == k then some v else fs.lookup k

/-- `Value::get(key)` — `none` on non-objects and absent keys. -/
def J.get (j : J) (k : String) : Option J :=
  match j with
  | .obj fs => fs.lookup k
  | _ => none

/-- `Value::as_str`. -/
def J.as_str : J → Option String
  | .str s => some s
  | _ => none

/-- `Value::as_array`, returned as an ordinary list. -/
def J.as_array : J → Option (List J)
  | .arr xs => some xs.toList
  | _ => none

/-- Numeric accessor (`as_i64` / `as_f64` under the integer number model). -/
def J.as_num : J → Option Int
  | .num n => some n
  | _ => none

/-- Object fields accessor (`as_object`), as an ordinary association list. -/
def J.as_obj : J → Option (List (String × J))
  | .obj fs => some fs.toPairs
  | _ => none

/-- Convenience constructor for array literals. -/
def jarr (xs : List J) : J := J.arr (JList.ofList xs)

/-- Convenience constructor for object literals. -/
def jobj (fs : List (String × J)) : J := J.obj (JFields.ofPairs fs)

/-- Normalized message record (`NormalizedMessage` of the connector
framework). -/
structure NormalizedMessage where
  idx : Int
  role : String
  author : Option String
  created_at : Option Int
  content : String
  extra : J
  snippets : List String

/-- Normalized conversation record (`NormalizedConversation`); paths are
modelled as strings. -/
structure NormalizedConversation where
  agent_slug : String
  external_id : Option String
  title : Option String
  workspace : Option String
  source_path : String
  started_at : Option Int
  ended_at : Option Int
  metadata : J
  messages : List NormalizedMessage

/-- Outcome of reading and JSON-parsing one file: the read itself can fail,
the bytes can fail to parse, or a value is produced. -/
inductive FileContent where
  | unreadable : FileContent
  | malformed : FileContent
  | parsed : J → FileContent

/-- One candidate file as seen by a connector scan: its path, its mtime in
millisecond epoch, and what reading/parsing it yields. -/
structure MFile where
  path : String
  mtime : Int
  content : FileContent

/-- Modelled from the spec: `file_modified_since(path, since_ts)` from the
missing `src/connectors/mod.rs` — "returns true if path's mtime is greater
than `since_ts` or `since_ts` is absent". -/
def file_modified_since (mtime : Int) (since_ts : Option Int) : Bool :=
  match since_ts with
  | none => true
  | some s => mtime > s

/-- Modelled from the spec: `parse_timestamp` from the missing
`src/connectors/mod.rs` — "accepts ISO-8601 strings, numeric seconds, and
numeric milliseconds; returns milliseconds since epoch.  Disambiguates
seconds vs milliseconds by magnitude (values > 10^12 are ms; values > 10^9
and ≤ 10^12 are seconds)".  The ISO-8601 string branch is not modelled (the
spec gives no grammar for it and no claim exercises it); numeric values at
or below 10^9 are not claimed by the spec either and are rejected here. -/
def parse_timestamp (j : J) : Option Int :=
  match j with
  | .num n =>
    if n > 1000000000000 then some n
    else if n > 1000000000 then some (n * 1000)
    else none
  | _ => none

mutual
/-- Modelled from the spec: `flatten_content` from the missing
`src/connectors/mod.rs` — "recursively concatenates text fragments from
heterogeneous content structures (arrays of parts, objects with
`text`/`parts` fields)". -/
def flatten_content : J → String
  | .str s => s
  | .arr xs => flattenList xs
  | .obj fs => flattenFields fs
  | _ => ""

/-- Concatenate the flattened fragments of array children. -/
def flattenList : JList → String
  | .nil => ""
  | .cons x .nil => flatten_content x
  | .cons x xs => flatten_content x ++ "\n" ++ flattenList xs

/-- Flatten the `text` and `parts` fields of an object, in field order. -/
def flattenFields : JFields → String
  | .fnil => ""
  | .fcons k v fs =>
    (if k == "text" || k == "parts" then flatten_content v else "") ++ flattenFields fs
end

/-- Split a string at every occurrence of a separator character
(`str::splitOn` for a one-character separator, e.g. path components). -/
def splitChar (sep : Char) (s : String) : List String :=
  go s.data []
where
  go : List Char → List Char → List String
    | [], cur => [String.mk cur.reverse]
    | c :: rest, cur =>
      if c == sep then String.mk cur.reverse :: go rest [] else go rest (c :: cur)

/-- `str::trim`: strip leading and trailing whitespace. -/
def sTrim (s : String) : String :=
  String.mk (((s.data.dropWhile Char.isWhitespace).reverse.dropWhile Char.isWhitespace).reverse)

/-- Digit run to a number, `none` on a non-digit. -/
def digitsVal? : Nat → List Char → Option Nat
  | acc, [] => some acc
  | acc, c :: rest =>
    if c.isDigit then digitsVal? (acc * 10 + (c.toNat - '0'.toNat)) rest else none

/-- `str::parse::<i64>()`: an optional sign followed by at least one digit. -/
def parseInt? (s : String) : Option Int :=
  match s.data with
  | [] => none
  | '-' :: rest => if rest.isEmpty then none else (digitsVal? 0 rest).map (fun n => -(n : Int))
  | '+' :: rest => if rest.isEmpty then none else (digitsVal? 0 rest).map (fun n => (n : Int))
  | l => (digitsVal? 0 l).map (fun n => (n : Int))

/-- Last path component (`Path::file_name`, total with the whole path as
fallback). -/
def fileName (p : String) : String :=
  ((splitChar '/' p).getLast?).getD p

/-- Strip the extension from a file name (`Path::file_stem`). -/
def dropExt (n : String) : String :=
  let parts := splitChar '.' n
  if parts.length ≤ 1 then n else String.intercalate "." parts.dropLast

/-- `Path::file_stem` of a full path. -/
def fileStem (p : String) : String :=
  dropExt (fileName p)

/-- Extension of a path (`Path::extension`). -/
def extOf (p : String) : Option String :=
  let parts := splitChar '.' (fileName p)
  if parts.length ≤ 1 then none else parts.getLast?

/-- `Path::parent`, as dropping the last `/`-separated component. -/
def parentDir (p : String) : Option String :=
  let parts := splitChar '/' p
  if parts.length ≤ 1 then none else some (String.intercalate "/" parts.dropLast)

/-- First line of a string (`str::lines().next()`); `\r\n` handling is not
modelled. -/
def rustFirstLine (s : String) : Option String :=
  if s == "" then none else (splitChar '\n' s).head?

/-- Stable insertion of `x` into a list sorted by the boolean relation `le`,
placing `x` before the first element it compares `le` to — the insertion
step of a stable ascending sort, as Rust `sort_by`/`sort_by_key`. -/
def insertLe (le : α → α → Bool) (x : α) : List α → List α
  | [] => [x]
  | y :: ys => if le x y then x :: y :: ys else y :: insertLe le x ys

/-- Stable insertion sort by the boolean relation `le`. -/
def sortLe (le : α → α → Bool) : List α → List α
  | [] => []
  | x :: xs => insertLe le x (sortLe le xs)

theorem mem_insertLe (le : α → α → Bool) (x : α) :
    ∀ (l : List α) (z : α), z ∈ insertLe le x l → z = x ∨ z ∈ l := by
  intro l
  induction l with
  | nil => intro z hz; simp [insertLe] at hz; exact Or.inl hz
  | cons y ys ih =>
    intro z hz
    by_cases h : le x y
    · simp [insertLe, h] at hz
      rcases hz with hz | hz | hz
      · exact Or.inl hz
      · exact Or.inr (by simp [hz])
      · exact Or.inr (by simp [hz])
    · simp [insertLe, h] at hz
      rcases hz with hz | hz
      · exact Or.inr (by simp [hz])
      · rcases ih z hz with hz | hz
        · exact Or.inl hz
        · exact Or.inr (by simp [hz])

theorem pairwise_insertLe (le : α → α → Bool)
    (htot : ∀ a b, le a b = false → le b a = true)
    (htrans : ∀ a b c, le a b = true → le b c = true → le a c = true) (x : α) :
    ∀ (l : List α), l.Pairwise (fun a b => le a b = true) →
      (insertLe le x l).Pairwise (fun a b => le a b = true) := by
  intro l
  induction l with
  | nil => intro _; simp [insertLe]
  | cons y ys ih =>
    intro h
    rcases List.pairwise_cons.mp h with ⟨hy, hys⟩
    by_cases hxy : le x y
    · rw [insertLe, if_pos hxy]
      refine List.pairwise_cons.mpr ⟨?_, h⟩
      intro z hz
      rcases List.mem_cons.mp hz with rfl | hz
      · exact hxy
      · exact htrans x y z hxy (hy z hz)
    · rw [insertLe, if_neg hxy]
      refine List.pairwise_cons.mpr ⟨?_, ih hys⟩
      intro z hz
      rcases mem_insertLe le x ys z hz with hz | hz
      · rw [hz]; exact htot x y (by simpa using hxy)
      · exact hy z hz

theorem pairwise_sortLe (le : α → α → Bool)
    (htot : ∀ a b, le a b = false → le b a = true)
    (htrans : ∀ a b c, le a b = true → le b c = true → le a c = true) :
    ∀ (l : List α), (sortLe le l).Pairwise (fun a b => le a b = true) := by
  intro l
  induction l with
  | nil => simp [sortLe]
  | cons x xs ih => exact pairwise_insertLe le htot htrans x _ ih

namespace Gemini

/-- The message loop of `GeminiConnector::scan` (gemini.rs:137-173): walks the
`messages` array with its enumeration index, mapping type `model` to role
`assistant`, updating the running `started_at`/`ended_at`, and keeping
entries with non-blank flattened content under their *source* index. -/
def buildMsgs (i : Nat) (items : List J) (s e : Option Int) :
    Option Int × Option Int × List NormalizedMessage :=
  match items with
  | [] => (s, e, [])
  | item :: rest =>
    let msg_type := ((item.get "type").bind J.as_str).getD "model"
    let role := if msg_type == "model" then "assistant" else msg_type
    let created := (item.get "timestamp").bind parse_timestamp
    let s' := s.or created
    let e' := created.or e
    let content_str := ((item.get "content").map flatten_content).getD ""
    if sTrim content_str == "" then
      buildMsgs (i + 1) rest s' e'
    else
      let r := buildMsgs (i + 1) rest s' e'
      (r.1, r.2.1,
        { idx := (i : Int), role := role, author := none, created_at := created,
          content := content_str, extra := item, snippets := [] } :: r.2.2)

/-- Title extraction of `GeminiConnector::scan` (gemini.rs:180-197). -/
def titleOf (messages : List NormalizedMessage) : Option String :=
  match messages.find? (fun m => m.role == "user") with
  | some m => some (((rustFirstLine m.content).getD m.content).take 100)
  | none => (messages.head?.bind fun m => rustFirstLine m.content).map (fun s => s.take 100)

/-- Body of the per-file loop of `GeminiConnector::scan` (gemini.rs:110-222)
after a successful read and JSON parse; `none` is `continue`. -/
def convOfVal (path : String) (val : J) : Option NormalizedConversation :=
  let session_id := (val.get "sessionId").bind J.as_str
  let project_hash := (val.get "projectHash").bind J.as_str
  let start_time := (val.get "startTime").bind parse_timestamp
  let last_updated := (val.get "lastUpdated").bind parse_timestamp
  match (val.get "messages").bind J.as_array with
  | none => none
  | some messages_arr =>
    let r := buildMsgs 0 messages_arr start_time last_updated
    if r.2.2.isEmpty then none
    else
      some
        { agent_slug := "gemini"
          external_id := session_id.or (some (fileStem path))
          title := titleOf r.2.2
          workspace := (parentDir path).bind parentDir
          source_path := path
          started_at := r.1
          ended_at := r.2.1
          metadata := jobj [("source", J.str "gemini"),
            ("project_hash", (project_hash.map J.str).getD J.null)]
          messages := r.2.2 }

/-- One iteration of the file loop of `GeminiConnector::scan`
(gemini.rs:101-222): a failed read propagates with `?` and aborts the scan;
a JSON parse failure is `continue`. -/
def step (acc : List NormalizedConversation) (f : MFile) :
    Except Unit (List NormalizedConversation) :=
  match f.content with
  | .unreadable => .error ()
  | .malformed => .ok acc
  | .parsed v => .ok (acc ++ (convOfVal f.path v).toList)

/-- The file loop of `GeminiConnector::scan` over the session files.  The
`_since_ts` watermark is carried in the scan context but never consulted by
this connector's source. -/
def scan (files : List MFile) (_since_ts : Option Int) :
    Except Unit (List NormalizedConversation) :=
  go files []
where
  go : List MFile → List NormalizedConversation → Except Unit (List NormalizedConversation)
    | [], acc => .ok acc
    | f :: rest, acc =>
      match step acc f with
      | .error e => .error e
      | .ok acc' => go rest acc'

end Gemini

namespace ChatGpt

/-- A collected mapping node of `parse_conversation_file`
(chatgpt.rs:108-118): `(parent, node_id, message)`. -/
abbrev MsgNode := Option String × String × J

/-- Collect `(parent, node_id, message)` for every mapping node carrying a
`message` field (chatgpt.rs:110-118). -/
def collectNodes (mapping : List (String × J)) : List MsgNode :=
  mapping.filterMap fun kv =>
    (kv.2.get "message").map fun msg =>
      ((kv.2.get "parent").bind J.as_str, kv.1, msg)

/-- Sort key of a mapping node: `create_time` with `0.0` for absent
(chatgpt.rs:121-131). -/
def nodeKey (t : MsgNode) : Int :=
  ((t.2.2.get "create_time").bind J.as_num).getD 0

/-- Boolean comparison used to sort mapping nodes ascending by
`create_time`. -/
def nodeLeB (a b : MsgNode) : Bool :=
  decide (nodeKey a ≤ nodeKey b)

/-- Content assembly for a mapping-node message: `content.parts` joined by
newline, else `content.text` (chatgpt.rs:147-164); `none` is `continue`. -/
def mapContent (msg : J) : Option String :=
  match ((msg.get "content").bind (fun c => c.get "parts")).bind J.as_array with
  | some parts => some (String.intercalate "\n" (parts.filterMap J.as_str))
  | none => ((msg.get "content").bind (fun c => c.get "text")).bind J.as_str

/-- The `since_ts` filter applied per message (chatgpt.rs:176-181 and
232-236): skip when both are present and `ts ≤ since`. -/
def sinceSkip (since created : Option Int) : Bool :=
  match since, created with
  | some s, some t => decide (t ≤ s)
  | _, _ => false

/-- The mapping-branch message loop (chatgpt.rs:133-204): walks the sorted
nodes, dropping `system` roles, empty content and watermark-filtered
messages, threading `started_at`/`ended_at` and appending messages with
`idx = messages.len()`. -/
def buildMap (since : Option Int) :
    List MsgNode → Option Int → Option Int → List NormalizedMessage →
      Option Int × Option Int × List NormalizedMessage
  | [], s, e, acc => (s, e, acc)
  | t :: rest, s, e, acc =>
    let msg := t.2.2
    let role := (((msg.get "author").bind (fun a => a.get "role")).bind J.as_str).getD "assistant"
    if role == "system" then buildMap since rest s e acc
    else
      match mapContent msg with
      | none => buildMap since rest s e acc
      | some content_str =>
        if sTrim content_str == "" then buildMap since rest s e acc
        else
          let created_at := ((msg.get "create_time").bind J.as_num).map (· * 1000)
          if sinceSkip since created_at then buildMap since rest s e acc
          else
            let s' := if s.isNone then created_at else s
            let model := ((msg.get "metadata").bind (fun m => m.get "model_slug")).bind J.as_str
            buildMap since rest s' created_at
              (acc ++ [{ idx := (acc.length : Int), role := role, author := model,
                         created_at := created_at, content := content_str,
                         extra := msg, snippets := [] }])

/-- The flat `messages`-array loop (chatgpt.rs:208-253): same skip rules,
timestamps through `parse_timestamp` of `timestamp` or `create_time`. -/
def buildFlat (since : Option Int) :
    List J → Option Int → Option Int → List NormalizedMessage →
      Option Int × Option Int × List NormalizedMessage
  | [], s, e, acc => (s, e, acc)
  | item :: rest, s, e, acc =>
    let role := ((item.get "role").bind J.as_str).getD "assistant"
    if role == "system" then buildFlat since rest s e acc
    else
      let content := ((item.get "content").bind J.as_str).getD ""
      if sTrim content == "" then buildFlat since rest s e acc
      else
        let created_at := ((item.get "timestamp").or (item.get "create_time")).bind parse_timestamp
        if sinceSkip since created_at then buildFlat since rest s e acc
        else
          let s' := if s.isNone then created_at else s
          buildFlat since rest s' created_at
            (acc ++ [{ idx := (acc.length : Int), role := role, author := none,
                       created_at := created_at, content := content,
                       extra := item, snippets := [] }])

/-- The mapping phase of `parse_conversation_file` (chatgpt.rs:106-205):
collect, sort by `create_time`, and run the message loop from an empty
state. -/
def mapPhase (v : J) (since : Option Int) :
    Option Int × Option Int × List NormalizedMessage :=
  match (v.get "mapping").bind J.as_obj with
  | some mapping => buildMap since (sortLe nodeLeB (collectNodes mapping)) none none []
  | none => (none, none, [])

/-- The flat-array phase of `parse_conversation_file` (chatgpt.rs:208-253),
entered with the state left by the mapping phase. -/
def flatPhase (v : J) (since : Option Int) (s e : Option Int) :
    Option Int × Option Int × List NormalizedMessage :=
  match (v.get "messages").bind J.as_array with
  | some items => buildFlat since items s e []
  | none => (s, e, [])

/-- `ChatGptConnector::parse_conversation_file` (chatgpt.rs:80-273): prefer
the mapping structure; fall back to the flat array only when the mapping
yielded no messages; `none` when no messages result at all. -/
def parseFile (path : String) (v : J) (since : Option Int) :
    Option NormalizedConversation :=
  let conv_id :=
    (((v.get "id").or (v.get "conversation_id")).bind J.as_str).or (some (fileStem path))
  let title := (v.get "title").bind J.as_str
  let m := mapPhase v since
  let r := if m.2.2.isEmpty then flatPhase v since m.1 m.2.1 else m
  if r.2.2.isEmpty then none
  else
    some
      { agent_slug := "chatgpt"
        external_id := conv_id
        title := title
        workspace := none
        source_path := path
        started_at := r.1
        ended_at := r.2.1
        metadata := jobj [("source", J.str "chatgpt_desktop"),
          ("model", (((v.get "model").bind J.as_str).map J.str).getD J.null)]
        messages := r.2.2 }

/-- One iteration of the per-file loop of `ChatGptConnector::scan`
(chatgpt.rs:343-384): only `json`/`data` files, skip files not modified
since the watermark before parsing, and skip (with a warning) any file whose
read or parse fails. -/
def step (since : Option Int) (acc : List NormalizedConversation) (f : MFile) :
    List NormalizedConversation :=
  if !(extOf f.path == some "json" || extOf f.path == some "data") then acc
  else if !file_modified_since f.mtime since then acc
  else
    match f.content with
    | .unreadable => acc
    | .malformed => acc
    | .parsed v =>
      match parseFile f.path v since with
      | some conv => acc ++ [conv]
      | none => acc

/-- The file loop of `ChatGptConnector::scan` over the candidate files of
the unencrypted conversation directories (directory discovery and the
encrypted-directory skip are upstream of this list). -/
def scan (files : List MFile) (since : Option Int) : List NormalizedConversation :=
  go files []
where
  go : List MFile → List NormalizedConversation → List NormalizedConversation
    | [], acc => acc
    | f :: rest, acc => go rest (step since acc f)

end ChatGpt

/-- Lexicographic strict order on character lists (Rust `String` ordering for
the identifier strings compared here). -/
def charListLt : List Char → List Char → Bool
  | [], [] => false
  | [], _ :: _ => true
  | _ :: _, [] => false
  | a :: as_, b :: bs => if a < b then true else if b < a then false else charListLt as_ bs

/-- Lexicographic `≤` on strings via `charListLt`. -/
def strLeB (a b : String) : Bool :=
  !charListLt b.data a.data

/-- Re-assign dense indices after collection, as `codebuff.rs:241-244` and
`opencode.rs:699-702` do with `enumerate`. -/
def reassignIdx (l : List NormalizedMessage) : List NormalizedMessage :=
  l.enum.map fun p => { p.2 with idx := (p.1 : Int) }

namespace Codebuff

/-- Output truncation of the tool branch of `extract_block_content`
(codebuff.rs:306-317): outputs over 1,000 bytes are cut at the largest UTF-8
boundary at or before 1,000 bytes and suffixed with `... [truncated]`. -/
def codebuff_truncate_output (output : String) : String :=
  if byteLen output > 1000 then takeBytesStr output 1000 ++ "... [truncated]"
  else output

/-- The `content`-field push shared by the `text`, `agent` and default
branches of `extract_block_content`. -/
def contentPush (block : J) : List String :=
  match (block.get "content").bind J.as_str with
  | some s => if s == "" then [] else [s]
  | none => []

/-- The `tool` branch of `extract_block_content` (codebuff.rs:287-321):
`[Tool: <name>]` with the command or path from `input`, then the output,
truncated via `codebuff_truncate_output`. -/
def toolParts (block : J) : List String :=
  let tool_name := ((block.get "toolName").bind J.as_str).getD "unknown"
  let inputPart :=
    match block.get "input" with
    | none => []
    | some input =>
      match (input.get "command").bind J.as_str with
      | some command => ["[Tool: " ++ tool_name ++ "] " ++ command]
      | none =>
        match (input.get "path").bind J.as_str with
        | some path => ["[Tool: " ++ tool_name ++ "] " ++ path]
        | none => ["[Tool: " ++ tool_name ++ "]"]
  let outPart :=
    match (block.get "output").bind J.as_str with
    | none => []
    | some output =>
      let truncated := codebuff_truncate_output output
      if truncated == "" then [] else [truncated]
  inputPart ++ outPart

mutual
/-- `extract_block_content` (codebuff.rs:276-346), returning the pushed
fragments in order; the recursive descent into the `blocks` field of an
`agent` block is written as a structural scan of the object fields
(first-match, as `Value::get`). -/
def extract_block_content (block : J) : List String :=
  let block_type := ((block.get "type").bind J.as_str).getD ""
  if block_type == "text" then contentPush block
  else if block_type == "tool" then toolParts block
  else if block_type == "agent" then
    contentPush block ++
      (match block with
       | .obj fs => agentNested fs
       | _ => [])
  else contentPush block

/-- Find the first `blocks` field of an `agent` block and recurse into its
array children (codebuff.rs:330-335). -/
def agentNested : JFields → List String
  | .fnil => []
  | .fcons k v fs =>
    if k == "blocks" then
      match v with
      | .arr xs => nestedList xs
      | _ => []
    else agentNested fs

/-- Recurse over the children of a nested `blocks` array. -/
def nestedList : JList → List String
  | .nil => []
  | .cons b bs => extract_block_content b ++ nestedList bs
end

/-- `extract_content` (codebuff.rs:255-273): the top-level `content` field
plus the fragments of every block, joined by newline. -/
def extract_content (msg : J) : String :=
  let direct :=
    match (msg.get "content").bind J.as_str with
    | some content => if content == "" then [] else [content]
    | none => []
  let blockParts :=
    match (msg.get "blocks").bind J.as_array with
    | some blocks => blocks.flatMap extract_block_content
    | none => []
  String.intercalate "\n" (direct ++ blockParts)

/-- `parse_codebuff_timestamp` (codebuff.rs:354-391): metadata timestamps,
then direct timestamp fields, then the embedded millisecond value of the
message id. -/
def parse_codebuff_timestamp (m : J) : Option Int :=
  let o1 :=
    ((m.get "metadata").bind fun md =>
      (md.get "timestamp").or ((md.get "createdAt").or (md.get "created_at"))).bind
      parse_timestamp
  match o1 with
  | some t => some t
  | none =>
    let o2 :=
      (((m.get "timestamp").or ((m.get "createdAt").or (m.get "created_at")))).bind
        parse_timestamp
    match o2 with
    | some t => some t
    | none =>
      match (m.get "id").bind J.as_str with
      | none => none
      | some id =>
        let parts := splitChar '-' id
        if parts.length ≥ 2 then
          match (parts.get? 1).bind parseInt? with
          | some ts =>
            if 1577836800000 < ts ∧ ts < 2000000000000 then some ts else none
          | none => none
        else none

/-- The collection loop of `extract_messages` (codebuff.rs:200-239): map
`variant` to a role, keep messages with non-blank extracted content, with a
placeholder index. -/
def buildOut : List J → List NormalizedMessage
  | [] => []
  | m :: rest =>
    let variant := ((m.get "variant").bind J.as_str).getD "unknown"
    let role :=
      if variant == "ai" then "assistant"
      else if variant == "human" then "user"
      else variant
    let content := extract_content m
    if sTrim content == "" then buildOut rest
    else
      { idx := 0, role := role,
        author := ((m.get "author").or (m.get "agentName")).bind J.as_str,
        created_at := parse_codebuff_timestamp m,
        content := content, extra := m, snippets := [] } :: buildOut rest

/-- `extract_messages` (codebuff.rs:197-247): collect, then re-assign dense
indices; `none` when the value is not an array or nothing was kept. -/
def extract_messages (val : J) : Option (List NormalizedMessage) :=
  match val.as_array with
  | none => none
  | some msgs =>
    let out := reassignIdx (buildOut msgs)
    if out.isEmpty then none else some out

/-- `extract_path_info` (codebuff.rs:396-422): the components following
`projects` and `chats` in the path. -/
def extract_path_info (path : String) : Option String × Option String :=
  go (splitChar '/' path) none none
where
  go : List String → Option String → Option String → Option String × Option String
    | [], proj, sess => (proj, sess)
    | c :: rest, proj, sess =>
      let proj' := if c == "projects" then (rest.head?).or proj else proj
      let sess' := if c == "chats" then (rest.head?).or sess else sess
      go rest proj' sess'

/-- `infer_workspace` (codebuff.rs:425-448): the first
`metadata.runState.sessionState.fileContext.projectRoot` (or `cwd`) of any
message, else the project name from the path. -/
def findWorkspace : List J → Option String
  | [] => none
  | m :: rest =>
    match (((m.get "metadata").bind fun md => md.get "runState").bind
        fun rs => rs.get "sessionState").bind fun ss => ss.get "fileContext" with
    | none => findWorkspace rest
    | some fc =>
      match (fc.get "projectRoot").bind J.as_str with
      | some root => some root
      | none =>
        match (fc.get "cwd").bind J.as_str with
        | some cwd => some cwd
        | none => findWorkspace rest

/-- `infer_workspace` entry point. -/
def infer_workspace (val : J) (path : String) : Option String :=
  match (val.as_array.map findWorkspace).getD none with
  | some w => some w
  | none => (extract_path_info path).1

/-- One iteration of the file loop of `CodebuffConnector::scan`
(codebuff.rs:98-175): only `chat-messages.json`, mtime watermark before
reading, silent skip of read and parse failures, dedup by external id key,
running state `(seen_ids, conversations)`. -/
def step (since : Option Int) (st : List String × List NormalizedConversation)
    (f : MFile) : List String × List NormalizedConversation :=
  if !(fileName f.path == "chat-messages.json") then st
  else if !file_modified_since f.mtime since then st
  else
    match f.content with
    | .unreadable => st
    | .malformed => st
    | .parsed v =>
      match extract_messages v with
      | none => st
      | some messages =>
        if messages.isEmpty then st
        else
          let pi := extract_path_info f.path
          let workspace := infer_workspace v f.path
          let title :=
            pi.1.or ((messages.head?.bind fun m => rustFirstLine m.content).map
              fun s => s.take 80)
          let external_id := pi.2.or ((parentDir f.path).map fileName)
          let key :=
            match external_id with
            | some id => "codebuff:" ++ id
            | none => "codebuff:" ++ f.path
          if st.1.contains key then st
          else
            let conv : NormalizedConversation :=
              { agent_slug := "codebuff"
                external_id := external_id
                title := title
                workspace := workspace
                source_path := f.path
                started_at := messages.head?.bind (fun m => m.created_at)
                ended_at := messages.getLast?.bind (fun m => m.created_at)
                metadata := v
                messages := messages }
            (key :: st.1, st.2 ++ [conv])

/-- The file loop of `CodebuffConnector::scan` over the candidate files
under the discovered roots. -/
def scan (files : List MFile) (since : Option Int) : List NormalizedConversation :=
  (go files ([], [])).2
where
  go : List MFile → List String × List NormalizedConversation →
      List String × List NormalizedConversation
    | [], st => st
    | f :: rest, st => go rest (step since st f)

end Codebuff

namespace OpenCode

/-- Timestamps (`OpenCodeTime`). -/
structure OCTime where
  created : Option Int := none
  updated : Option Int := none
  completed : Option Int := none

/-- User-message summary (`OpenCodeMessageSummary`). -/
structure OCSummary where
  title : Option String := none
  body : Option String := none

/-- Model info (`OpenCodeModel`). -/
structure OCModel where
  provider_id : Option String := none
  model_id : Option String := none

/-- Token usage (`OpenCodeTokens`). -/
structure OCTokens where
  input : Option Int := none
  output : Option Int := none
  reasoning : Option Int := none

/-- Session git stats (`OpenCodeSessionSummary`). -/
structure OCSessionSummary where
  additions : Option Int := none
  deletions : Option Int := none
  files : Option Int := none

/-- Session metadata (`OpenCodeSession`). -/
structure OCSession where
  id : String
  version : Option String := none
  project_id : String
  directory : Option String := none
  parent_id : Option String := none
  title : Option String := none
  time : Option OCTime := none
  summary : Option OCSessionSummary := none

/-- Message metadata (`OpenCodeMessage`); fields that only feed diagnostics
(`path`, `cost` precision, cache tokens) are omitted or integer-modelled. -/
structure OCMessage where
  id : String
  session_id : String
  role : String
  time : Option OCTime := none
  parent_id : Option String := none
  model_id : Option String := none
  provider_id : Option String := none
  mode : Option String := none
  cost : Option Int := none
  tokens : Option OCTokens := none
  finish : Option String := none
  summary : Option OCSummary := none
  agent : Option String := none
  model : Option OCModel := none

/-- Tool state of a tool part (`OpenCodeToolState`). -/
structure OCToolState where
  status : Option String := none
  input : Option J := none
  output : Option String := none
  title : Option String := none

/-- One part record (`OpenCodePart`); only the fields consulted by content
assembly are modelled. -/
structure OCPart where
  id : String
  session_id : String
  message_id : String
  part_type : String
  text : Option String := none
  tool : Option String := none
  state : Option OCToolState := none
  files : Option (List String) := none
  filename : Option String := none

/-- One parsed session file: path, mtime, record. -/
structure OCSessFile where
  path : String
  mtime : Int
  sess : OCSession

/-- The storage tree as data: the parsed session files and all message and
part records (the source reads them from `session/`, `message/{sid}` and
`part/{mid}` directories; *per-file* read/parse failures in those loops are
skipped at debug level and are not modelled — the lists hold the records
that parse).  Directory *enumeration* failures, however, are propagated by
the source with `?` and are modelled: `badMsgDirs` holds the session ids
whose `message/{sid}` directory fails `read_dir` (opencode.rs:398-399,
aborting the scan through `load_messages(...)?` at opencode.rs:673), and
`badPartDirs` holds the message ids whose `part/{mid}` directory fails
`read_dir` (opencode.rs:434-435, surfacing as the `Err` that the
normalization loop skips at opencode.rs:683-686). -/
structure OCStore where
  sessions : List OCSessFile
  messages : List OCMessage
  parts : List OCPart
  badMsgDirs : List String := []
  badPartDirs : List String := []

/-- Sort key of `load_messages` (opencode.rs:420): `time.created`, 0 when
absent. -/
def msgKey (m : OCMessage) : Int :=
  (m.time.bind fun t => t.created).getD 0

/-- `load_messages` (opencode.rs:390-423): the session's message records
sorted by creation time; `none` is the `read_dir(...)?` error of the
session's message directory, which the caller propagates. -/
def load_messages (st : OCStore) (sid : String) : Option (List OCMessage) :=
  if st.badMsgDirs.contains sid then none
  else
    some (sortLe (fun a b => decide (msgKey a ≤ msgKey b))
      (st.messages.filter fun m => m.session_id == sid))

/-- `load_parts` (opencode.rs:426-459): the message's parts sorted by id;
`none` is the `read_dir(...)?` error of the message's part directory, which
the caller propagates. -/
def load_parts (st : OCStore) (mid : String) : Option (List OCPart) :=
  if st.badPartDirs.contains mid then none
  else
    some (sortLe (fun a b => strLeB a.id b.id)
      (st.parts.filter fun p => p.message_id == mid))

/-- Outcome of `normalize_message`: a Rust panic while assembling (aborts
the whole scan), the propagated `load_parts` I/O error (the scan skips the
message at debug level), or a normalized message. -/
inductive OCNorm where
  | fatal : OCNorm
  | ioError : OCNorm
  | ok : NormalizedMessage → OCNorm

/-- The `tool` branch of `assemble_content` (opencode.rs:481-519): title,
else description, file path or command from the input (commands over 100
bytes are byte-sliced with `&cmd[..100]`, which panics off a UTF-8 boundary
— modelled as `none`), then the output appended only when non-empty and
under 500 bytes. -/
def renderTool (p : OCPart) : Option String :=
  let tool_name := p.tool.getD "unknown"
  let base := "[Tool: " ++ tool_name ++ "]"
  match p.state with
  | none => some base
  | some state =>
    let desc0 : Option String :=
      match state.title with
      | some title => some ("[Tool: " ++ tool_name ++ " - " ++ title ++ "]")
      | none =>
        match state.input with
        | none => some base
        | some input =>
          match (input.get "description").bind J.as_str with
          | some d => some ("[Tool: " ++ tool_name ++ " - " ++ d ++ "]")
          | none =>
            match (input.get "filePath").bind J.as_str with
            | some fp => some ("[Tool: " ++ tool_name ++ " - " ++ fp ++ "]")
            | none =>
              match (input.get "command").bind J.as_str with
              | some cmd =>
                if byteLen cmd > 100 then
                  (rustSliceTo cmd 100).map
                    (fun c => "[Tool: " ++ tool_name ++ " - " ++ c ++ "...]")
                else some ("[Tool: " ++ tool_name ++ " - " ++ cmd ++ "]")
              | none => some base
    desc0.map fun desc =>
      match state.output with
      | some output =>
        if output == "" then desc
        else if byteLen output < 500 then desc ++ "\n" ++ output
        else desc
      | none => desc

/-- Contribution of one part to the assembled content (opencode.rs:465-539);
`none` models the panic of the tool branch. -/
def assemblePart (p : OCPart) : Option (List String) :=
  match p.part_type with
  | "text" =>
    some (match p.text with
      | some t => if t == "" then [] else [t]
      | none => [])
  | "reasoning" =>
    some (match p.text with
      | some t => if t == "" then [] else ["[Reasoning]\n" ++ t]
      | none => [])
  | "tool" => (renderTool p).map fun d => [d]
  | "patch" =>
    some (match p.files with
      | some files => ["[Patch: " ++ String.intercalate ", " files ++ "]"]
      | none => [])
  | "step-start" => some []
  | "step-finish" => some []
  | "compaction" => some []
  | "file" =>
    some (match p.filename with
      | some fn => ["[File: " ++ fn ++ "]"]
      | none => [])
  | _ => some []

/-- `OpenCodeConnector::assemble_content` (opencode.rs:462-542): the parts'
contributions joined by newline; `none` models a panic while rendering a
tool part. -/
def assemble_content (parts : List OCPart) : Option String :=
  (go parts).map (String.intercalate "\n")
where
  go : List OCPart → Option (List String)
    | [] => some []
    | p :: rest => do
      let xs ← assemblePart p
      let ys ← go rest
      pure (xs ++ ys)

/-- `OpenCodeConnector::get_author` (opencode.rs:545-561). -/
def get_author (m : OCMessage) : Option String :=
  match m.model_id with
  | some mid => some mid
  | none =>
    match m.model.bind fun mm => mm.model_id with
    | some mid => some mid
    | none => m.agent

/-- The `extra` blob built by `normalize_message` (opencode.rs:589-620). -/
def extraOf (m : OCMessage) : J :=
  jobj ((m.provider_id.map fun p => ("provider", J.str p)).toList ++
    (m.mode.map fun x => ("mode", J.str x)).toList ++
    (m.cost.map fun c => ("cost", J.num c)).toList ++
    (m.tokens.map fun t =>
      ("tokens", jobj [("input", (t.input.map J.num).getD J.null),
        ("output", (t.output.map J.num).getD J.null),
        ("reasoning", (t.reasoning.map J.num).getD J.null)])).toList ++
    (m.finish.map fun x => ("finish", J.str x)).toList ++
    (m.parent_id.map fun x => ("parent_id", J.str x)).toList)

/-- `OpenCodeConnector::normalize_message` (opencode.rs:564-631): load the
parts (`load_parts(...)?` propagates the part-directory I/O error), assemble
their content (which can panic on a command slice), merge the summary body
for user messages, and build the normalized record; no emptiness check is
applied to the content. -/
def normalize_message (st : OCStore) (m : OCMessage) (idx : Int) : OCNorm :=
  match load_parts st m.id with
  | none => .ioError
  | some parts =>
    match assemble_content parts with
    | none => .fatal
    | some content0 =>
      let content :=
        if m.role == "user" then
          match m.summary.bind fun s => s.body with
          | some body =>
            if body == "" then content0
            else if content0 == "" then body
            else body ++ "\n\n" ++ content0
          | none => content0
        else content0
      .ok { idx := idx, role := m.role, author := get_author m,
            created_at := m.time.bind fun t => t.created,
            content := content, extra := extraOf m, snippets := [] }

/-- The normalization loop of `OpenCodeConnector::scan` (opencode.rs:679-687)
with its enumeration index: an `Err` from `normalize_message` skips the
message at debug level while the enumeration index advances; a panic
(`none`) aborts the scan. -/
def normalizeAll (st : OCStore) : Nat → List OCMessage → Option (List NormalizedMessage)
  | _, [] => some []
  | i, m :: rest =>
    match normalize_message st m (i : Int) with
    | .fatal => none
    | .ioError => normalizeAll st (i + 1) rest
    | .ok nm => (normalizeAll st (i + 1) rest).map fun ns => nm :: ns

/-- The `since_ts` message filter of `OpenCodeConnector::scan`
(opencode.rs:693-703): keep messages with `created_at > since` and re-index
densely. -/
def sinceFilter (since : Option Int) (msgs : List NormalizedMessage) :
    List NormalizedMessage :=
  match since with
  | none => msgs
  | some s =>
    reassignIdx (msgs.filter fun m =>
      match m.created_at with
      | some ts => decide (ts > s)
      | none => false)

/-- Conversation assembly of `OpenCodeConnector::scan` (opencode.rs:705-748). -/
def mkConv (sf : OCSessFile) (raw : List OCMessage)
    (normalized : List NormalizedMessage) : NormalizedConversation :=
  { agent_slug := "opencode"
    external_id := some sf.sess.id
    title := sf.sess.title.or (raw.findSome? fun m => m.summary.bind fun s => s.title)
    workspace := sf.sess.directory
    source_path := sf.path
    started_at :=
      (sf.sess.time.bind fun t => t.created).or
        (normalized.head?.bind fun m => m.created_at)
    ended_at :=
      (sf.sess.time.bind fun t => t.updated.or t.completed).or
        (normalized.getLast?.bind fun m => m.created_at)
    metadata := jobj [("session_id", J.str sf.sess.id),
      ("project_id", J.str sf.sess.project_id),
      ("version", (sf.sess.version.map J.str).getD J.null),
      ("parent_session", (sf.sess.parent_id.map J.str).getD J.null),
      ("summary", (sf.sess.summary.map fun s =>
        jobj [("additions", (s.additions.map J.num).getD J.null),
          ("deletions", (s.deletions.map J.num).getD J.null),
          ("files", (s.files.map J.num).getD J.null)]).getD J.null)]
    messages := normalized }

/-- One iteration of the session loop of `OpenCodeConnector::scan`
(opencode.rs:661-749): watermark on the session file's mtime, dedup by
session id, load messages (`load_messages(...)?` aborts the scan on a
directory read error), normalize them, apply the message-level watermark
filter, and emit the conversation. -/
def sessStep (st : OCStore) (since : Option Int)
    (state : List String × List NormalizedConversation) (sf : OCSessFile) :
    Option (List String × List NormalizedConversation) :=
  if !file_modified_since sf.mtime since then some state
  else if state.1.contains sf.sess.id then some state
  else
    let seen := sf.sess.id :: state.1
    match load_messages st sf.sess.id with
    | none => none
    | some msgs =>
      if msgs.isEmpty then some (seen, state.2)
      else
        match normalizeAll st 0 msgs with
        | none => none
        | some normalized =>
          if normalized.isEmpty then some (seen, state.2)
          else
            let kept := sinceFilter since normalized
            if since.isSome && kept.isEmpty then some (seen, state.2)
            else some (seen, state.2 ++ [mkConv sf msgs kept])

/-- The session loop of `OpenCodeConnector::scan`. -/
def scanGo (st : OCStore) (since : Option Int) :
    List OCSessFile → List String × List NormalizedConversation →
      Option (List String × List NormalizedConversation)
  | [], state => some state
  | sf :: rest, state => do
    let state' ← sessStep st since state sf
    scanGo st since rest state'

/-- `OpenCodeConnector::scan` (opencode.rs:645-752) over a storage tree;
`none` models an aborted run — a panic during content assembly, or the
error a message-directory enumeration failure propagates with `?`. -/
def scan (st : OCStore) (since : Option Int) : Option (List NormalizedConversation) :=
  (scanGo st since st.sessions ([], [])).map fun state => state.2

end OpenCode

namespace ChatGpt

/-- The per-item keep decision of the flat-array loop (the `continue` guards
of chatgpt.rs:211-236), returning the `(role, content)` of a kept item. -/
def flatKeep (since : Option Int) (item : J) : Option (String × String) :=
  let role := ((item.get "role").bind J.as_str).getD "assistant"
  if role == "system" then none
  else
    let content := ((item.get "content").bind J.as_str).getD ""
    if sTrim content == "" then none
    else
      let created_at := ((item.get "timestamp").or (item.get "create_time")).bind parse_timestamp
      if sinceSkip since created_at then none
      else some (role, content)

/-- `created_at` computed for a mapping node (chatgpt.rs:171-174):
`create_time` seconds scaled to milliseconds. -/
def createdOf (t : MsgNode) : Option Int :=
  ((t.2.2.get "create_time").bind J.as_num).map (· * 1000)

end ChatGpt

/-- Placeholder conversation used to name the value held by a concrete
`Option NormalizedConversation` below. -/
def dummyConv : NormalizedConversation :=
  { agent_slug := "", external_id := none, title := none, workspace := none,
    source_path := "", started_at := none, ended_at := none,
    metadata := J.null, messages := [] }

/- Concrete instances used by the counterexamples and witnesses. -/

/-- A Gemini session message array: non-blank, blank and non-blank contents
with out-of-order timestamps. -/
def gemVal1 : J :=
  jobj [("messages", jarr [
    jobj [("type", J.str "user"), ("content", J.str "hello"),
      ("timestamp", J.num 2000000000000)],
    jobj [("type", J.str "user"), ("content", J.str ""),
      ("timestamp", J.num 1500000000000)],
    jobj [("type", J.str "user"), ("content", J.str "bye"),
      ("timestamp", J.num 1600000000000)]])]

/-- A Gemini session file with mtime 50 (older than any watermark used
below). -/
def gemFile1 : MFile :=
  { path := "/home/u/.gemini/tmp/h1/chats/session-1.json", mtime := 50,
    content := .parsed gemVal1 }

/-- A Gemini session file whose read fails. -/
def gemBadFile : MFile :=
  { path := "/home/u/.gemini/tmp/h1/chats/session-2.json", mtime := 60,
    content := .unreadable }

/-- Flat ChatGPT items: two user messages with increasing timestamps. -/
def cgFlatItems : List J :=
  [jobj [("role", J.str "user"), ("content", J.str "a"),
    ("timestamp", J.num 1600000000000)],
   jobj [("role", J.str "user"), ("content", J.str "b"),
    ("timestamp", J.num 1700000000000)]]

/-- A ChatGPT conversation file holding only the flat `messages` array. -/
def cgFlatVal : J := jobj [("messages", jarr cgFlatItems)]

/-- A ChatGPT conversation file holding *both* a `mapping` yielding one
message and a flat `messages` array. -/
def cgBothVal : J :=
  jobj [
    ("id", J.str "conv1"),
    ("mapping", jobj [
      ("n1", jobj [("message", jobj [
        ("author", jobj [("role", J.str "user")]),
        ("content", jobj [("parts", jarr [J.str "hello"])]),
        ("create_time", J.num 1600000000)])])]),
    ("messages", jarr [
      jobj [("role", J.str "user"), ("content", J.str "flat")]])]

/-- A ChatGPT mapping with two messages whose `create_time`s are stored out
of order. -/
def cgMapVal : J :=
  jobj [("mapping", jobj [
    ("n1", jobj [("message", jobj [
      ("author", jobj [("role", J.str "user")]),
      ("content", jobj [("text", J.str "late")]),
      ("create_time", J.num 1700000000)])]),
    ("n2", jobj [("message", jobj [
      ("author", jobj [("role", J.str "user")]),
      ("content", jobj [("text", J.str "early")]),
      ("create_time", J.num 1600000000)])])])]

/-- A stale ChatGPT conversation file (mtime 50). -/
def cgStaleFile : MFile :=
  { path := "conv.json", mtime := 50, content := .parsed cgFlatVal }

/-- A ChatGPT conversation file whose read fails. -/
def cgBadFile : MFile :=
  { path := "bad.json", mtime := 500, content := .unreadable }

/-- The conversation parsed from `cgFlatVal` without a watermark. -/
def cgFlatConv : NormalizedConversation :=
  (ChatGpt.parseFile "conv.json" cgFlatVal none).getD dummyConv

/-- The conversation parsed from `cgMapVal` without a watermark. -/
def cgMapConv : NormalizedConversation :=
  (ChatGpt.parseFile "conv.json" cgMapVal none).getD dummyConv

/-- A Codebuff `chat-messages.json` array with a user turn and an assistant
turn carrying a tool block. -/
def cbVal : J :=
  jarr [
    jobj [("variant", J.str "human"), ("content", J.str "do stuff"),
      ("metadata", jobj [("timestamp", J.num 1700000000000)])],
    jobj [("variant", J.str "ai"), ("content", J.str ""),
      ("blocks", jarr [
        jobj [("type", J.str "tool"), ("toolName", J.str "run"),
          ("input", jobj [("command", J.str "git status")]),
          ("output", J.str "clean")],
        jobj [("type", J.str "text"), ("content", J.str "done")]])]]

/-- A stale Codebuff chat file (mtime 50). -/
def cbStaleFile : MFile :=
  { path := "/h/.config/manicode/projects/proj/chats/t1/chat-messages.json",
    mtime := 50, content := .parsed cbVal }

/-- A Codebuff chat file whose read fails. -/
def cbBadFile : MFile :=
  { path := "/h/.config/manicode/projects/proj/chats/t2/chat-messages.json",
    mtime := 500, content := .unreadable }

/-- The messages `extract_messages` yields on `cbVal`. -/
def cbMsgs : List NormalizedMessage :=
  (Codebuff.extract_messages cbVal).getD []

/-- A Codebuff tool block with a command input and an output, for the
truncation statements. -/
def toolBlock (name cmd out : String) : J :=
  jobj [("type", J.str "tool"), ("toolName", J.str name),
    ("input", jobj [("command", J.str cmd)]),
    ("output", J.str out)]

/-- An OpenCode tool part carrying only an output. -/
def ocToolPart (name out : String) : OpenCode.OCPart :=
  { id := "prt1", session_id := "ses", message_id := "msg", part_type := "tool",
    tool := some name,
    state := some { output := some out } }

/-- An OpenCode tool part with a 1,200-byte output (longer than the 1,000
byte budget of the spec). -/
def ocLongOutPart : OpenCode.OCPart :=
  ocToolPart "bash" (String.mk (List.replicate 1200 'A'))

/-- An OpenCode tool part whose command's 100th byte falls inside the
two-byte character `é` (99 ASCII bytes then `é`). -/
def ocBadCmdPart : OpenCode.OCPart :=
  { id := "prt1", session_id := "ses", message_id := "msg", part_type := "tool",
    tool := some "bash",
    state := some { input := some (jobj [("command",
      J.str (String.mk (List.replicate 99 'a' ++ ['é'])))]) } }

/-- An OpenCode store with one session and one message that has no parts:
its assembled content is empty. -/
def ocStoreEmptyMsg : OpenCode.OCStore :=
  { sessions := [{ path := "/s/session/p1/ses1.json"
                   mtime := 10
                   sess := { id := "ses1"
                             project_id := "p1"
                             time := some { created := some 1000 } } }]
    messages := [{ id := "msg1"
                   session_id := "ses1"
                   role := "assistant"
                   time := some { created := some 5 } }]
    parts := [] }

/-- An OpenCode store with one session and two text messages. -/
def ocStoreA : OpenCode.OCStore :=
  { sessions := [{ path := "/s/session/p1/ses1.json"
                   mtime := 5000
                   sess := { id := "ses1", project_id := "p1" } }]
    messages := [
      { id := "m1", session_id := "ses1", role := "user",
        time := some { created := some 1000 } },
      { id := "m2", session_id := "ses1", role := "user",
        time := some { created := some 3000 } }]
    parts := [
      { id := "p1", session_id := "ses1", message_id := "m1",
        part_type := "text", text := some "old" },
      { id := "p2", session_id := "ses1", message_id := "m2",
        part_type := "text", text := some "new" }] }

/-- An OpenCode store like `ocStoreA` but where the part directory of the
first message fails to enumerate: `load_parts` returns the `read_dir` error
and the scan skips that message while the enumeration index advances. -/
def ocStoreBad : OpenCode.OCStore :=
  { sessions := [{ path := "/s/session/p1/ses1.json"
                   mtime := 10
                   sess := { id := "ses1", project_id := "p1" } }]
    messages := [
      { id := "m1", session_id := "ses1", role := "user",
        time := some { created := some 1000 } },
      { id := "m2", session_id := "ses1", role := "user",
        time := some { created := some 3000 } }]
    parts := [
      { id := "p2", session_id := "ses1", message_id := "m2",
        part_type := "text", text := some "new" }]
    badPartDirs := ["m1"] }

/-- The conversations `OpenCode.scan` yields on `ocStoreA` under the
watermark 2000. -/
def ocConvsB : List NormalizedConversation :=
  (OpenCode.scan ocStoreA (some 2000)).getD []

/-- Placeholder message for `headD`. -/
def dummyMsg : NormalizedMessage :=
  { idx := 0, role := "", author := none, created_at := none, content := "",
    extra := J.null, snippets := [] }

/-- The conversation parsed from `cgBothVal` without a watermark. -/
def cgBothConv : NormalizedConversation :=
  (ChatGpt.parseFile "conv.json" cgBothVal none).getD dummyConv

/-- The conversations the Gemini scan yields on `[gemFile1]` without a
watermark. -/
def gemConvs : List NormalizedConversation :=
  (Gemini.scan [gemFile1] none).toOption.getD []

/-- First conversation of `gemConvs`. -/
def gemConv0 : NormalizedConversation := gemConvs.headD dummyConv

/-- First message of `gemConv0`. -/
def gemMsg0 : NormalizedMessage := gemConv0.messages.headD dummyMsg

/-- First message of `cbMsgs`. -/
def cbMsg0 : NormalizedMessage := cbMsgs.headD dummyMsg

/-- The conversation parsed from `cgFlatVal` without a watermark; alias for
projections. -/
def cgFlatMsg0 : NormalizedMessage := cgFlatConv.messages.headD dummyMsg

/-- First conversation of `ocConvsB`. -/
def ocConvB0 : NormalizedConversation := ocConvsB.headD dummyConv

/-- A fresh (mtime 500) readable ChatGPT conversation file. -/
def cgGoodFile : MFile :=
  { path := "conv.json", mtime := 500, content := .parsed cgFlatVal }

/-- A fresh (mtime 500) readable Codebuff chat file. -/
def cbGoodFile : MFile :=
  { path := "/h/.config/manicode/projects/proj/chats/t3/chat-messages.json",
    mtime := 500, content := .parsed cbVal }

/-- A 1,001-byte tool output. -/
def bigOut : String := String.mk (List.replicate 1001 'B')

/-! Helper lemmas. -/

theorem intRange_succ (n : Nat) : intRange (n + 1) = intRange n ++ [(n : Int)] := by
  simp [intRange, List.range_succ]

theorem takeBytes_sum_le : ∀ (l : List Char) (n : Nat),
    ((takeBytes l n).map Char.utf8Size).sum ≤ n := by
  intro l
  induction l with
  | nil => intro n; simp [takeBytes]
  | cons c rest ih =>
    intro n
    by_cases h : c.utf8Size ≤ n
    · have := ih (n - c.utf8Size)
      simp only [takeBytes, if_pos h, List.map_cons, List.sum_cons]
      omega
    · simp [takeBytes, if_neg h]

theorem byteLen_takeBytesStr_le (s : String) (n : Nat) :
    byteLen (takeBytesStr s n) ≤ n := by
  simpa [byteLen, takeBytesStr] using takeBytes_sum_le s.data n

theorem takeBytes_append : ∀ (l : List Char) (n : Nat),
    ∃ rest, l = takeBytes l n ++ rest := by
  intro l
  induction l with
  | nil => intro n; exact ⟨[], by simp [takeBytes]⟩
  | cons c cs ih =>
    intro n
    by_cases h : c.utf8Size ≤ n
    · obtain ⟨rest, hrest⟩ := ih (n - c.utf8Size)
      exact ⟨rest, by simp [takeBytes, if_pos h]; exact hrest⟩
    · exact ⟨c :: cs, by simp [takeBytes, if_neg h]⟩

theorem reassignIdx_idx (l : List NormalizedMessage) :
    (reassignIdx l).map (fun m => m.idx) = intRange l.length := by
  have h1 : (reassignIdx l).map (fun m => m.idx) = l.enum.map (fun p => (p.1 : Int)) := by
    simp [reassignIdx, List.map_map]
  have h2 : l.enum.map (fun p => (p.1 : Int)) =
      (l.enum.map Prod.fst).map (fun n : Nat => (n : Int)) := by
    rw [List.map_map]; rfl
  rw [h1, h2, List.enum_map_fst]
  unfold intRange
  rfl

theorem mem_reassignIdx (l : List NormalizedMessage) (m : NormalizedMessage) :
    m ∈ reassignIdx l → ∃ m', m' ∈ l ∧ m.content = m'.content := by
  intro h
  rcases List.mem_map.mp h with ⟨p, hp, hm⟩
  refine ⟨p.2, ?_, by rw [← hm]⟩
  have := List.of_mem_zip (by
    rw [← List.enum_eq_zip_range]
    simpa using hp)
  exact this.2

theorem buildMap_idx (since : Option Int) :
    ∀ (l : List ChatGpt.MsgNode) (s e : Option Int) (acc : List NormalizedMessage),
      acc.map (fun m => m.idx) = intRange acc.length →
      ((ChatGpt.buildMap since l s e acc).2.2).map (fun m => m.idx) =
        intRange ((ChatGpt.buildMap since l s e acc).2.2).length := by
  intro l
  induction l with
  | nil => intro s e acc h; simpa [ChatGpt.buildMap] using h
  | cons t rest ih =>
    intro s e acc h
    simp only [ChatGpt.buildMap]
    split
    · exact ih _ _ _ h
    · split
      · exact ih _ _ _ h
      · split
        · exact ih _ _ _ h
        · split
          · exact ih _ _ _ h
          · apply ih
            rw [List.map_append, List.length_append, h]
            simp [intRange_succ]

theorem buildFlat_idx (since : Option Int) :
    ∀ (l : List J) (s e : Option Int) (acc : List NormalizedMessage),
      acc.map (fun m => m.idx) = intRange acc.length →
      ((ChatGpt.buildFlat since l s e acc).2.2).map (fun m => m.idx) =
        intRange ((ChatGpt.buildFlat since l s e acc).2.2).length := by
  intro l
  induction l with
  | nil => intro s e acc h; simpa [ChatGpt.buildFlat] using h
  | cons t rest ih =>
    intro s e acc h
    simp only [ChatGpt.buildFlat]
    split
    · exact ih _ _ _ h
    · split
      · exact ih _ _ _ h
      · split
        · exact ih _ _ _ h
        · apply ih
          rw [List.map_append, List.length_append, h]
          simp [intRange_succ]

theorem buildMap_content (since : Option Int) :
    ∀ (l : List ChatGpt.MsgNode) (s e : Option Int) (acc : List NormalizedMessage),
      (∀ m ∈ acc, sTrim m.content ≠ "") →
      ∀ m ∈ (ChatGpt.buildMap since l s e acc).2.2, sTrim m.content ≠ "" := by
  intro l
  induction l with
  | nil => intro s e acc h; simpa [ChatGpt.buildMap] using h
  | cons t rest ih =>
    intro s e acc h
    simp only [ChatGpt.buildMap]
    split
    · exact ih _ _ _ h
    · split
      · exact ih _ _ _ h
      · split
        · exact ih _ _ _ h
        · split
          · exact ih _ _ _ h
          · next hcond _ =>
            apply ih
            intro m hm
            rcases List.mem_append.mp hm with hm | hm
            · exact h m hm
            · rcases List.mem_singleton.mp hm with rfl
              simpa using hcond

theorem buildFlat_content (since : Option Int) :
    ∀ (l : List J) (s e : Option Int) (acc : List NormalizedMessage),
      (∀ m ∈ acc, sTrim m.content ≠ "") →
      ∀ m ∈ (ChatGpt.buildFlat since l s e acc).2.2, sTrim m.content ≠ "" := by
  intro l
  induction l with
  | nil => intro s e acc h; simpa [ChatGpt.buildFlat] using h
  | cons t rest ih =>
    intro s e acc h
    simp only [ChatGpt.buildFlat]
    split
    · exact ih _ _ _ h
    · split
      · exact ih _ _ _ h
      · split
        · exact ih _ _ _ h
        · next hcond _ =>
          apply ih
          intro m hm
          rcases List.mem_append.mp hm with hm | hm
          · exact h m hm
          · rcases List.mem_singleton.mp hm with rfl
            simpa using hcond

theorem buildFlat_spec (since : Option Int) :
    ∀ (l : List J) (s e : Option Int) (acc : List NormalizedMessage),
      ((ChatGpt.buildFlat since l s e acc).2.2).map (fun m => (m.role, m.content)) =
        acc.map (fun m => (m.role, m.content)) ++ l.filterMap (ChatGpt.flatKeep since) := by
  intro l
  induction l with
  | nil => intro s e acc; simp [ChatGpt.buildFlat]
  | cons item rest ih =>
    intro s e acc
    by_cases h1 : (((item.get "role").bind J.as_str).getD "assistant") = "system"
    · simp [ChatGpt.buildFlat, ChatGpt.flatKeep, List.filterMap_cons, h1, ih]
    · by_cases h2 : sTrim (((item.get "content").bind J.as_str).getD "") = ""
      · simp [ChatGpt.buildFlat, ChatGpt.flatKeep, List.filterMap_cons, h1, h2, ih]
      · by_cases h3 : ChatGpt.sinceSkip since
            (((item.get "timestamp").or (item.get "create_time")).bind parse_timestamp) = true
        · simp [ChatGpt.buildFlat, ChatGpt.flatKeep, List.filterMap_cons, h1, h2, h3, ih]
        · simp [ChatGpt.buildFlat, ChatGpt.flatKeep, List.filterMap_cons, h1, h2, h3, ih,
            List.map_append]

theorem createdOf_eq (t : ChatGpt.MsgNode) (b : Int) :
    ChatGpt.createdOf t = some b → b = ChatGpt.nodeKey t * 1000 := by
  unfold ChatGpt.createdOf ChatGpt.nodeKey
  cases h : (t.2.2.get "create_time").bind J.as_num with
  | none => simp
  | some k => simp; omega

theorem nodeLeB_total (a b : ChatGpt.MsgNode) :
    ChatGpt.nodeLeB a b = false → ChatGpt.nodeLeB b a = true := by
  simp [ChatGpt.nodeLeB]; omega

theorem nodeLeB_trans (a b c : ChatGpt.MsgNode) :
    ChatGpt.nodeLeB a b = true → ChatGpt.nodeLeB b c = true →
      ChatGpt.nodeLeB a c = true := by
  simp [ChatGpt.nodeLeB]; omega

theorem buildMap_mono (since : Option Int) :
    ∀ (l : List ChatGpt.MsgNode) (s e : Option Int) (acc : List NormalizedMessage),
      l.Pairwise (fun a b => ChatGpt.nodeLeB a b = true) →
      (∀ a, s = some a → ∀ t ∈ l, ∀ b, ChatGpt.createdOf t = some b → a ≤ b) →
      (∀ a b, s = some a → e = some b → a ≤ b) →
      ∀ a b, (ChatGpt.buildMap since l s e acc).1 = some a →
        (ChatGpt.buildMap since l s e acc).2.1 = some b → a ≤ b := by
  intro l
  induction l with
  | nil =>
    intro s e acc _ _ hB a b h1 h2
    simp only [ChatGpt.buildMap] at h1 h2
    exact hB a b h1 h2
  | cons t rest ih =>
    intro s e acc hpw hA hB
    rcases List.pairwise_cons.mp hpw with ⟨hhead, htail⟩
    have hAtail : ∀ (s' : Option Int), (∀ a, s' = some a → ∀ t' ∈ t :: rest, ∀ b,
        ChatGpt.createdOf t' = some b → a ≤ b) →
        ∀ a, s' = some a → ∀ t' ∈ rest, ∀ b, ChatGpt.createdOf t' = some b → a ≤ b :=
      fun s' h a ha t' ht' b hb => h a ha t' (List.mem_cons_of_mem _ ht') b hb
    simp only [ChatGpt.buildMap]
    split
    · exact ih _ _ _ htail (hAtail s hA) hB
    · split
      · exact ih _ _ _ htail (hAtail s hA) hB
      · split
        · exact ih _ _ _ htail (hAtail s hA) hB
        · split
          · exact ih _ _ _ htail (hAtail s hA) hB
          · apply ih _ _ _ htail
            · intro a ha t' ht' b hb
              have hb' := createdOf_eq t' b hb
              by_cases hs : s.isNone
              · rw [if_pos hs] at ha
                have ha' := createdOf_eq t a ha
                have hk : ChatGpt.nodeKey t ≤ ChatGpt.nodeKey t' := by
                  have := hhead t' ht'
                  simpa [ChatGpt.nodeLeB] using this
                omega
              · rw [if_neg hs] at ha
                exact hA a ha t' (List.mem_cons_of_mem _ ht') b hb
            · intro a b ha hb
              have hb' := createdOf_eq t b hb
              by_cases hs : s.isNone
              · rw [if_pos hs] at ha
                have ha' := createdOf_eq t a ha
                omega
              · rw [if_neg hs] at ha
                exact hA a ha t (List.mem_cons_self t rest) b hb

theorem gemini_buildMsgs_content : ∀ (items : List J) (i : Nat) (s e : Option Int),
    ∀ m ∈ (Gemini.buildMsgs i items s e).2.2, sTrim m.content ≠ "" := by
  intro items
  induction items with
  | nil => intro i s e m hm; simp [Gemini.buildMsgs] at hm
  | cons item rest ih =>
    intro i s e m hm
    simp only [Gemini.buildMsgs] at hm
    split at hm
    · exact ih _ _ _ m hm
    · next hcond =>
      simp only [List.mem_cons] at hm
      rcases hm with rfl | hm
      · simpa using hcond
      · exact ih _ _ _ m hm

theorem gemini_convOfVal_content (path : String) (v : J) (c : NormalizedConversation) :
    Gemini.convOfVal path v = some c → ∀ m ∈ c.messages, sTrim m.content ≠ "" := by
  intro h m hm
  unfold Gemini.convOfVal at h
  cases harr : (v.get "messages").bind J.as_array with
  | none => rw [harr] at h; exact absurd h (by simp)
  | some arr =>
    rw [harr] at h
    dsimp only at h
    split at h
    · exact absurd h (by simp)
    · rcases Option.some.inj h with rfl
      exact gemini_buildMsgs_content arr 0 _ _ m hm

theorem gemini_go_content : ∀ (files : List MFile) (acc convs : List NormalizedConversation),
    (∀ c ∈ acc, ∀ m ∈ c.messages, sTrim m.content ≠ "") →
    Gemini.scan.go files acc = Except.ok convs →
    ∀ c ∈ convs, ∀ m ∈ c.messages, sTrim m.content ≠ "" := by
  intro files
  induction files with
  | nil =>
    intro acc convs hacc h
    simp only [Gemini.scan.go] at h
    rcases Except.ok.inj h with rfl
    exact hacc
  | cons f rest ih =>
    intro acc convs hacc h
    simp only [Gemini.scan.go, Gemini.step] at h
    cases hc : f.content with
    | unreadable => rw [hc] at h; exact absurd h (by simp)
    | malformed => rw [hc] at h; exact ih _ _ hacc h
    | parsed v =>
      rw [hc] at h
      refine ih _ _ ?_ h
      intro c hcmem
      rcases List.mem_append.mp hcmem with hcmem | hcmem
      · exact hacc c hcmem
      · have : c ∈ Gemini.convOfVal f.path v := Option.mem_toList.mp hcmem
        exact gemini_convOfVal_content f.path v c this

theorem codebuff_buildOut_content : ∀ (msgs : List J),
    ∀ m ∈ Codebuff.buildOut msgs, sTrim m.content ≠ "" := by
  intro msgs
  induction msgs with
  | nil => intro m hm; simp [Codebuff.buildOut] at hm
  | cons item rest ih =>
    intro m hm
    simp only [Codebuff.buildOut] at hm
    split at hm
    · exact ih m hm
    · next hcond =>
      simp only [List.mem_cons] at hm
      rcases hm with rfl | hm
      · simpa using hcond
      · exact ih m hm

theorem codebuff_extract_messages_content (v : J) (msgs : List NormalizedMessage) :
    Codebuff.extract_messages v = some msgs → ∀ m ∈ msgs, sTrim m.content ≠ "" := by
  intro h m hm
  unfold Codebuff.extract_messages at h
  cases harr : v.as_array with
  | none => rw [harr] at h; exact absurd h (by simp)
  | some l =>
    rw [harr] at h
    dsimp only at h
    split at h
    · exact absurd h (by simp)
    · rcases Option.some.inj h with rfl
      obtain ⟨m', hm', hcont⟩ := mem_reassignIdx _ m hm
      rw [hcont]
      exact codebuff_buildOut_content l m' hm'

theorem reassignIdx_length (l : List NormalizedMessage) :
    (reassignIdx l).length = l.length := by
  simp [reassignIdx]

theorem codebuff_extract_messages_idx (v : J) (msgs : List NormalizedMessage) :
    Codebuff.extract_messages v = some msgs →
    msgs.map (fun m => m.idx) = intRange msgs.length := by
  intro h
  unfold Codebuff.extract_messages at h
  cases harr : v.as_array with
  | none => rw [harr] at h; exact absurd h (by simp)
  | some l =>
    rw [harr] at h
    dsimp only at h
    split at h
    · exact absurd h (by simp)
    · rcases Option.some.inj h with rfl
      rw [reassignIdx_idx, reassignIdx_length]

theorem sessStep_idx (st : OpenCode.OCStore) (s : Int)
    (state state' : List String × List NormalizedConversation) (sf : OpenCode.OCSessFile) :
    (∀ c ∈ state.2, c.messages.map (fun m => m.idx) = intRange c.messages.length) →
    OpenCode.sessStep st (some s) state sf = some state' →
    ∀ c ∈ state'.2, c.messages.map (fun m => m.idx) = intRange c.messages.length := by
  intro hinv h
  unfold OpenCode.sessStep at h
  split at h
  · rcases Option.some.inj h with rfl; exact hinv
  · split at h
    · rcases Option.some.inj h with rfl; exact hinv
    · dsimp only at h
      cases hlm : OpenCode.load_messages st sf.sess.id with
      | none => rw [hlm] at h; exact absurd h (by simp)
      | some msgs =>
        rw [hlm] at h
        dsimp only at h
        split at h
        · rcases Option.some.inj h with rfl; exact hinv
        · cases hn : OpenCode.normalizeAll st 0 msgs with
          | none => rw [hn] at h; exact absurd h (by simp)
          | some normalized =>
            rw [hn] at h
            dsimp only at h
            split at h
            · rcases Option.some.inj h with rfl; exact hinv
            · split at h
              · rcases Option.some.inj h with rfl; exact hinv
              · rcases Option.some.inj h with rfl
                intro c hc
                rcases List.mem_append.mp hc with hc | hc
                · exact hinv c hc
                · rcases List.mem_singleton.mp hc with rfl
                  show (OpenCode.sinceFilter (some s) normalized).map (fun m => m.idx) =
                    intRange (OpenCode.sinceFilter (some s) normalized).length
                  simp only [OpenCode.sinceFilter]
                  rw [reassignIdx_idx, reassignIdx_length]

theorem scanGo_idx (st : OpenCode.OCStore) (s : Int) :
    ∀ (sessions : List OpenCode.OCSessFile)
      (state state' : List String × List NormalizedConversation),
      (∀ c ∈ state.2, c.messages.map (fun m => m.idx) = intRange c.messages.length) →
      OpenCode.scanGo st (some s) sessions state = some state' →
      ∀ c ∈ state'.2, c.messages.map (fun m => m.idx) = intRange c.messages.length := by
  intro sessions
  induction sessions with
  | nil =>
    intro state state' hinv h
    simp only [OpenCode.scanGo] at h
    rcases Option.some.inj h with rfl
    exact hinv
  | cons sf rest ih =>
    intro state state' hinv h
    simp only [OpenCode.scanGo] at h
    cases h1 : OpenCode.sessStep st (some s) state sf with
    | none => rw [h1] at h; exact absurd h (by simp)
    | some state1 =>
      rw [h1] at h
      simp only [Option.bind_eq_bind, Option.some_bind] at h
      exact ih state1 state' (sessStep_idx st s state state1 sf hinv h1) h

theorem mapPhase_idx (v : J) (since : Option Int) :
    ((ChatGpt.mapPhase v since).2.2).map (fun m => m.idx) =
      intRange ((ChatGpt.mapPhase v since).2.2).length := by
  unfold ChatGpt.mapPhase
  split
  · exact buildMap_idx since _ none none [] (by simp [intRange])
  · simp [intRange]

theorem flatPhase_idx (v : J) (since : Option Int) (s e : Option Int) :
    ((ChatGpt.flatPhase v since s e).2.2).map (fun m => m.idx) =
      intRange ((ChatGpt.flatPhase v since s e).2.2).length := by
  unfold ChatGpt.flatPhase
  split
  · exact buildFlat_idx since _ s e [] (by simp [intRange])
  · simp [intRange]

theorem chatgpt_parseFile_idx (path : String) (v : J) (since : Option Int)
    (c : NormalizedConversation) :
    ChatGpt.parseFile path v since = some c →
    c.messages.map (fun m => m.idx) = intRange c.messages.length := by
  intro h
  unfold ChatGpt.parseFile at h
  dsimp only at h
  split at h
  · split at h
    · exact absurd h (by simp)
    · rcases Option.some.inj h with rfl
      exact flatPhase_idx v since _ _
  · rcases Option.some.inj h with rfl
    exact mapPhase_idx v since

theorem mapPhase_content (v : J) (since : Option Int) :
    ∀ m ∈ (ChatGpt.mapPhase v since).2.2, sTrim m.content ≠ "" := by
  unfold ChatGpt.mapPhase
  split
  · exact buildMap_content since _ none none [] (by simp)
  · simp

theorem flatPhase_content (v : J) (since : Option Int) (s e : Option Int) :
    ∀ m ∈ (ChatGpt.flatPhase v since s e).2.2, sTrim m.content ≠ "" := by
  unfold ChatGpt.flatPhase
  split
  · exact buildFlat_content since _ s e [] (by simp)
  · simp

theorem chatgpt_parseFile_content (path : String) (v : J) (since : Option Int)
    (c : NormalizedConversation) :
    ChatGpt.parseFile path v since = some c →
    ∀ m ∈ c.messages, sTrim m.content ≠ "" := by
  intro h
  unfold ChatGpt.parseFile at h
  dsimp only at h
  split at h
  · split at h
    · exact absurd h (by simp)
    · rcases Option.some.inj h with rfl
      exact flatPhase_content v since _ _
  · rcases Option.some.inj h with rfl
    exact mapPhase_content v since

theorem chatgpt_step_stale (s : Int) (f : MFile) (hm : f.mtime ≤ s)
    (acc : List NormalizedConversation) : ChatGpt.step (some s) acc f = acc := by
  unfold ChatGpt.step
  have hmod : file_modified_since f.mtime (some s) = false := by
    simp [file_modified_since]; omega
  split
  · rfl
  · rw [hmod]; rfl

theorem chatgpt_step_bad (since : Option Int) (f : MFile)
    (hbad : f.content = FileContent.unreadable ∨ f.content = FileContent.malformed)
    (acc : List NormalizedConversation) : ChatGpt.step since acc f = acc := by
  unfold ChatGpt.step
  rcases hbad with h | h <;>
    (split
     · rfl
     · split
       · rfl
       · rw [h])

theorem chatgpt_go_skip (since : Option Int) (f : MFile)
    (hf : ∀ a, ChatGpt.step since a f = a) :
    ∀ (before after : List MFile) (acc : List NormalizedConversation),
      ChatGpt.scan.go since (before ++ f :: after) acc =
        ChatGpt.scan.go since (before ++ after) acc := by
  intro before
  induction before with
  | nil =>
    intro after acc
    simp only [List.nil_append, ChatGpt.scan.go, hf]
  | cons g gs ih =>
    intro after acc
    simp only [List.cons_append, ChatGpt.scan.go]
    exact ih after _

theorem codebuff_step_stale (s : Int) (f : MFile) (hm : f.mtime ≤ s)
    (st : List String × List NormalizedConversation) :
    Codebuff.step (some s) st f = st := by
  unfold Codebuff.step
  have hmod : file_modified_since f.mtime (some s) = false := by
    simp [file_modified_since]; omega
  split
  · rfl
  · rw [hmod]; rfl

theorem codebuff_step_bad (since : Option Int) (f : MFile)
    (hbad : f.content = FileContent.unreadable ∨ f.content = FileContent.malformed)
    (st : List String × List NormalizedConversation) :
    Codebuff.step since st f = st := by
  unfold Codebuff.step
  rcases hbad with h | h <;>
    (split
     · rfl
     · split
       · rfl
       · rw [h])

theorem codebuff_go_skip (since : Option Int) (f : MFile)
    (hf : ∀ st, Codebuff.step since st f = st) :
    ∀ (before after : List MFile) (st : List String × List NormalizedConversation),
      Codebuff.scan.go since (before ++ f :: after) st =
        Codebuff.scan.go since (before ++ after) st := by
  intro before
  induction before with
  | nil =>
    intro after st
    simp only [List.nil_append, Codebuff.scan.go, hf]
  | cons g gs ih =>
    intro after st
    simp only [List.cons_append, Codebuff.scan.go]
    exact ih after _

/-! Claim theorems. -/

set_option maxRecDepth 10000 in
/-- Counterexample to claim C1: the Gemini connector parses and emits a
session file whose mtime (50) is at or below the `since_ts` watermark (100);
the file is not skipped before parsing. -/
theorem c1_counterexample :
    gemFile1.mtime = 50 ∧
    (Gemini.scan [gemFile1] (some 100)).map
      (fun cs => cs.map fun c => c.messages.map fun m => m.content) =
      Except.ok [["hello", "bye"]] :=
  ⟨rfl, rfl⟩

/-- Claim C1 (amended): the ChatGPT and Codebuff scans skip a candidate file
whose mtime is ≤ the `since_ts` watermark before reading or parsing it —
scanning with such a file present equals scanning without it; the Gemini
scan has no such filter (see the counterexample). -/
theorem c1_amended_thm (since : Option Int) (s : Int) (hs : since = some s)
    (f : MFile) (hm : f.mtime ≤ s) (before after : List MFile) :
    ChatGpt.scan (before ++ f :: after) since = ChatGpt.scan (before ++ after) since ∧
    Codebuff.scan (before ++ f :: after) since = Codebuff.scan (before ++ after) since := by
  subst hs
  constructor
  · unfold ChatGpt.scan
    exact chatgpt_go_skip (some s) f (fun a => chatgpt_step_stale s f hm a) before after []
  · unfold Codebuff.scan
    rw [codebuff_go_skip (some s) f (fun st => codebuff_step_stale s f hm st) before after ([], [])]

set_option maxRecDepth 10000 in
/-- Witness for C1 (amended) at concrete stale files. -/
theorem c1_witness :
    (50 : Int) ≤ 100 ∧
    ChatGpt.scan [cgStaleFile] (some 100) = ChatGpt.scan [] (some 100) ∧
    Codebuff.scan [cbStaleFile] (some 100) = Codebuff.scan [] (some 100) := by
  refine ⟨by norm_num, ?_, ?_⟩
  · exact (c1_amended_thm (some 100) 100 rfl cgStaleFile (by decide) [] []).1
  · exact (c1_amended_thm (some 100) 100 rfl cbStaleFile (by decide) [] []).2

set_option maxRecDepth 10000 in
/-- Counterexample to claim C4: a single unreadable file makes the Gemini
scan return an error, losing the conversations of the remaining files. -/
theorem c4_counterexample :
    Gemini.scan [gemBadFile, gemFile1] none = Except.error () := rfl

/-- Claim C4 (amended): for the ChatGPT and Codebuff scans a file whose read
or JSON parse fails is skipped and the scan continues, returning the
conversations of the remaining files (ChatGPT logs the failure at warn
level, Codebuff silently); the Gemini scan aborts with an error on a failed
read (see the counterexample). -/
theorem c4_amended_thm (since : Option Int) (f : MFile)
    (hbad : f.content = FileContent.unreadable ∨ f.content = FileContent.malformed)
    (before after : List MFile) :
    ChatGpt.scan (before ++ f :: after) since = ChatGpt.scan (before ++ after) since ∧
    Codebuff.scan (before ++ f :: after) since = Codebuff.scan (before ++ after) since := by
  constructor
  · unfold ChatGpt.scan
    exact chatgpt_go_skip since f (fun a => chatgpt_step_bad since f hbad a) before after []
  · unfold Codebuff.scan
    rw [codebuff_go_skip since f (fun st => codebuff_step_bad since f hbad st) before after ([], [])]

set_option maxRecDepth 10000 in
/-- Witness for C4 (amended) at concrete unreadable files followed by good
files. -/
theorem c4_witness :
    ChatGpt.scan [cgBadFile, cgGoodFile] none = ChatGpt.scan [cgGoodFile] none ∧
    Codebuff.scan [cbBadFile, cbGoodFile] none = Codebuff.scan [cbGoodFile] none := by
  constructor
  · exact (c4_amended_thm none cgBadFile (Or.inl rfl) [] [cgGoodFile]).1
  · exact (c4_amended_thm none cbBadFile (Or.inl rfl) [] [cbGoodFile]).2

set_option maxRecDepth 10000 in
/-- Counterexample to claim C2: the Gemini scan assigns `idx` from the
source array position, so skipping the blank-content entry leaves the gap
`[0, 2]`; and the OpenCode scan without a watermark keeps the enumeration
index of the normalization loop, so skipping a message whose part directory
fails to read emits the non-contiguous `[1]`. -/
theorem c2_counterexample :
    (Gemini.scan [gemFile1] none).map
      (fun cs => cs.map fun c => c.messages.map fun m => m.idx) =
      Except.ok [[0, 2]] ∧
    (OpenCode.scan ocStoreBad none).map
      (fun cs => cs.map fun c => c.messages.map fun m => m.idx) =
      some [[1]] :=
  ⟨rfl, rfl⟩

/-- Claim C2 (amended): the ChatGPT parser and Codebuff's `extract_messages`
emit messages whose `idx` values form the contiguous range `0..n-1`, and so
do OpenCode conversations scanned under a present `since_ts` watermark
(survivors of the filter are re-indexed densely).  Without a watermark the
OpenCode scan keeps the enumeration indices, so a message skipped on a
part-directory read error leaves a gap, and the Gemini scan keeps source
positions and gaps appear when blank-content entries are skipped (see the
counterexample). -/
theorem c2_amended_thm :
    (∀ (path : String) (v : J) (since : Option Int) (c : NormalizedConversation),
      ChatGpt.parseFile path v since = some c →
      c.messages.map (fun m => m.idx) = intRange c.messages.length) ∧
    (∀ (v : J) (msgs : List NormalizedMessage),
      Codebuff.extract_messages v = some msgs →
      msgs.map (fun m => m.idx) = intRange msgs.length) ∧
    (∀ (st : OpenCode.OCStore) (s : Int) (convs : List NormalizedConversation),
      OpenCode.scan st (some s) = some convs →
      ∀ c ∈ convs, c.messages.map (fun m => m.idx) = intRange c.messages.length) := by
  refine ⟨chatgpt_parseFile_idx, codebuff_extract_messages_idx, ?_⟩
  intro st s convs h c hc
  unfold OpenCode.scan at h
  cases hg : OpenCode.scanGo st (some s) st.sessions ([], []) with
  | none => rw [hg] at h; exact absurd h (by simp)
  | some state =>
    rw [hg] at h
    simp only [Option.map_some'] at h
    rcases Option.some.inj h with rfl
    exact scanGo_idx st s st.sessions ([], []) state (by simp) hg c hc

set_option maxRecDepth 10000 in
/-- Witness for C2 (amended) at concrete inputs. -/
theorem c2_witness :
    cgFlatConv.messages.map (fun m => m.idx) = intRange cgFlatConv.messages.length ∧
    cbMsgs.map (fun m => m.idx) = intRange cbMsgs.length ∧
    ocConvB0.messages.map (fun m => m.idx) = intRange ocConvB0.messages.length := by
  refine ⟨?_, ?_, ?_⟩
  · exact c2_amended_thm.1 "conv.json" cgFlatVal none cgFlatConv rfl
  · exact c2_amended_thm.2.1 cbVal cbMsgs rfl
  · exact c2_amended_thm.2.2 ocStoreA 2000 ocConvsB rfl ocConvB0
      (List.mem_of_mem_head? (Option.mem_def.mpr rfl))

set_option maxRecDepth 10000 in
/-- Counterexample to claim C3: the OpenCode scan emits a message whose
assembled content is empty when the message has no content-bearing parts. -/
theorem c3_counterexample :
    (OpenCode.scan ocStoreEmptyMsg none).map
      (fun cs => cs.map fun c => c.messages.map fun m => m.content) =
      some [[""]] := rfl

/-- Claim C3 (amended): the Gemini, ChatGPT and Codebuff connectors reject
messages whose content is empty or whitespace-only at assembly time, so all
their emitted messages have non-blank content; the OpenCode scan applies no
such check and can emit empty content (see the counterexample). -/
theorem c3_amended_thm :
    (∀ (files : List MFile) (since : Option Int) (convs : List NormalizedConversation),
      Gemini.scan files since = Except.ok convs →
      ∀ c ∈ convs, ∀ m ∈ c.messages, sTrim m.content ≠ "") ∧
    (∀ (path : String) (v : J) (since : Option Int) (c : NormalizedConversation),
      ChatGpt.parseFile path v since = some c →
      ∀ m ∈ c.messages, sTrim m.content ≠ "") ∧
    (∀ (v : J) (msgs : List NormalizedMessage),
      Codebuff.extract_messages v = some msgs →
      ∀ m ∈ msgs, sTrim m.content ≠ "") := by
  refine ⟨?_, chatgpt_parseFile_content, codebuff_extract_messages_content⟩
  intro files since convs h
  exact gemini_go_content files [] convs (by simp) h

set_option maxRecDepth 10000 in
/-- Witness for C3 (amended) at concrete inputs. -/
theorem c3_witness :
    sTrim gemMsg0.content ≠ "" ∧
    sTrim cgFlatMsg0.content ≠ "" ∧
    sTrim cbMsg0.content ≠ "" := by
  refine ⟨?_, ?_, ?_⟩
  · exact c3_amended_thm.1 [gemFile1] none gemConvs rfl gemConv0
      (List.mem_of_mem_head? (Option.mem_def.mpr rfl)) gemMsg0
      (List.mem_of_mem_head? (Option.mem_def.mpr rfl))
  · exact c3_amended_thm.2.1 "conv.json" cgFlatVal none cgFlatConv rfl cgFlatMsg0
      (List.mem_of_mem_head? (Option.mem_def.mpr rfl))
  · exact c3_amended_thm.2.2 cbVal cbMsgs rfl cbMsg0
      (List.mem_of_mem_head? (Option.mem_def.mpr rfl))

set_option maxRecDepth 40000 in
/-- Counterexample to claim C5: the OpenCode connector omits a tool output
longer than the budget entirely (1,200 bytes here) instead of including it
in truncated form. -/
theorem c5_counterexample :
    1000 < byteLen (String.mk (List.replicate 1200 'A')) ∧
    OpenCode.assemble_content [ocLongOutPart] = some "[Tool: bash]" :=
  ⟨by decide, rfl⟩

/-- Claim C5 (amended): Codebuff renders a tool block as
`[Tool: <name>] <command>` followed by the output truncated at a UTF-8
boundary within 1,000 bytes (suffixed `... [truncated]`); OpenCode includes
a tool output only when it is under 500 bytes and omits longer outputs
entirely (see the counterexample). -/
theorem c5_amended_thm (name cmd out : String) (hlong : 1000 < byteLen out) :
    Codebuff.extract_block_content (toolBlock name cmd out) =
      ["[Tool: " ++ name ++ "] " ++ cmd,
        takeBytesStr out 1000 ++ "... [truncated]"] ∧
    byteLen (takeBytesStr out 1000) ≤ 1000 ∧
    (∃ rest, out.data = (takeBytesStr out 1000).data ++ rest) ∧
    (∀ name2 out2 : String, out2 ≠ "" → 500 ≤ byteLen out2 →
      OpenCode.renderTool (ocToolPart name2 out2) =
        some ("[Tool: " ++ name2 ++ "]")) := by
  have h1 : Codebuff.codebuff_truncate_output out =
      takeBytesStr out 1000 ++ "... [truncated]" := by
    unfold Codebuff.codebuff_truncate_output
    rw [if_pos hlong]
  have h2 : takeBytesStr out 1000 ++ "... [truncated]" ≠ "" := by
    intro hEq
    have hd := congrArg String.data hEq
    rw [String.data_append] at hd
    have h3 := (List.append_eq_nil.mp hd).2
    exact absurd h3 (by decide)
  refine ⟨?_, byteLen_takeBytesStr_le out 1000, ?_, ?_⟩
  · simp [toolBlock, jobj, JFields.ofPairs, Codebuff.extract_block_content,
      Codebuff.toolParts, Codebuff.contentPush, J.get, JFields.lookup, J.as_str,
      h1, h2]
  · have := takeBytes_append out.data 1000
    simpa [takeBytesStr] using this
  · intro name2 out2 hne hlen
    have hnotlt : ¬ (byteLen out2 < 500) := by omega
    simp [OpenCode.renderTool, ocToolPart, hne, hnotlt]

set_option maxRecDepth 40000 in
/-- Witness for C5 (amended) at a concrete 1,001-byte output. -/
theorem c5_witness :
    1000 < byteLen bigOut ∧
    Codebuff.extract_block_content (toolBlock "run" "git status" bigOut) =
      ["[Tool: run] git status", takeBytesStr bigOut 1000 ++ "... [truncated]"] ∧
    OpenCode.renderTool (ocToolPart "bash" bigOut) = some "[Tool: bash]" := by
  refine ⟨by decide, ?_, ?_⟩
  · exact (c5_amended_thm "run" "git status" bigOut (by decide)).1
  · exact (c5_amended_thm "run" "git status" bigOut (by decide)).2.2.2 "bash" bigOut
      (by decide) (by decide)

set_option maxRecDepth 10000 in
/-- Claim C6, evaluated at the failing input: assembling an OpenCode tool
part whose command is 99 ASCII bytes followed by the two-byte character `é`
panics (modelled as `none`) because `&cmd[..100]` slices inside the
character. -/
theorem c6_code_bug_eval : OpenCode.assemble_content [ocBadCmdPart] = none := rfl

/-- Claim C7: `parse_conversation_file` uses the mapping structure whenever
it yields at least one message, and consults the flat `messages` array only
when the mapping yields none. -/
theorem c7_thm (path : String) (v : J) (since : Option Int) :
    (((ChatGpt.mapPhase v since).2.2).isEmpty = false →
      ∀ c, ChatGpt.parseFile path v since = some c →
        c.messages = (ChatGpt.mapPhase v since).2.2) ∧
    (((ChatGpt.mapPhase v since).2.2).isEmpty = true →
      ∀ c, ChatGpt.parseFile path v since = some c →
        c.messages = (ChatGpt.flatPhase v since (ChatGpt.mapPhase v since).1
          (ChatGpt.mapPhase v since).2.1).2.2) := by
  constructor
  · intro hne c h
    simp only [ChatGpt.parseFile, hne] at h
    simp at h
    rcases h with ⟨-, rfl⟩
    rfl
  · intro hemp c h
    simp only [ChatGpt.parseFile, hemp] at h
    simp at h
    rcases h with ⟨-, rfl⟩
    rfl

set_option maxRecDepth 10000 in
/-- Witness for C7 at a file holding both a non-empty mapping and a flat
messages array. -/
theorem c7_witness :
    ((ChatGpt.mapPhase cgBothVal none).2.2).isEmpty = false ∧
    cgBothConv.messages = (ChatGpt.mapPhase cgBothVal none).2.2 :=
  ⟨rfl, (c7_thm "conv.json" cgBothVal none).1 rfl cgBothConv rfl⟩

set_option maxRecDepth 10000 in
/-- Counterexample to claim C8: the same unchanged ChatGPT source parsed
with two different `since_ts` watermarks gives the message `"b"` idx 1 in
one scan and idx 0 in the other, because filtered messages are re-indexed
densely. -/
theorem c8_counterexample :
    (ChatGpt.parseFile "conv.json" cgFlatVal none).map
      (fun c => c.messages.map fun m => (m.content, m.idx)) =
      some [("a", 0), ("b", 1)] ∧
    (ChatGpt.parseFile "conv.json" cgFlatVal (some 1650000000000)).map
      (fun c => c.messages.map fun m => (m.content, m.idx)) =
      some [("b", 0)] :=
  ⟨rfl, rfl⟩

/-- Claim C8 (amended): re-scanning unchanged sources with the *same*
`since_ts` yields identical messages and idx values (the parse is a pure
function of the source and the watermark), and within one scan the flat
branch emits exactly the kept items in source order with `idx` densely
enumerating that order; different watermarks can assign different idx
values (see the counterexample). -/
theorem c8_amended_thm :
    (∀ (path : String) (v : J) (s1 s2 : Option Int), s1 = s2 →
      ChatGpt.parseFile path v s1 = ChatGpt.parseFile path v s2) ∧
    (∀ (since : Option Int) (items : List J),
      ((ChatGpt.buildFlat since items none none []).2.2).map (fun m => (m.role, m.content)) =
        items.filterMap (ChatGpt.flatKeep since)) ∧
    (∀ (since : Option Int) (items : List J),
      ((ChatGpt.buildFlat since items none none []).2.2).map (fun m => m.idx) =
        intRange ((ChatGpt.buildFlat since items none none []).2.2).length) := by
  refine ⟨fun path v s1 s2 h => by rw [h], ?_, ?_⟩
  · intro since items
    simpa using buildFlat_spec since items none none []
  · intro since items
    exact buildFlat_idx since items none none [] (by simp [intRange])

set_option maxRecDepth 10000 in
/-- Witness for C8 (amended) at the concrete flat file. -/
theorem c8_witness :
    ChatGpt.parseFile "conv.json" cgFlatVal none =
      ChatGpt.parseFile "conv.json" cgFlatVal none ∧
    ((ChatGpt.buildFlat none cgFlatItems none none []).2.2).map
        (fun m => (m.role, m.content)) =
      cgFlatItems.filterMap (ChatGpt.flatKeep none) ∧
    ((ChatGpt.buildFlat none cgFlatItems none none []).2.2).map (fun m => m.idx) =
      intRange ((ChatGpt.buildFlat none cgFlatItems none none []).2.2).length :=
  ⟨c8_amended_thm.1 "conv.json" cgFlatVal none none rfl,
   c8_amended_thm.2.1 none cgFlatItems,
   c8_amended_thm.2.2 none cgFlatItems⟩

set_option maxRecDepth 10000 in
/-- Counterexample to claim C9: the Gemini connector takes timestamps in
source order, so a session whose messages are stored out of order yields
`started_at` (2000000000000) greater than `ended_at` (1600000000000). -/
theorem c9_counterexample :
    (1600000000000 : Int) < 2000000000000 ∧
    (Gemini.scan [gemFile1] none).map
      (fun cs => cs.map fun c => (c.started_at, c.ended_at)) =
      Except.ok [(some 2000000000000, some 1600000000000)] :=
  ⟨by norm_num, rfl⟩

/-- Claim C9 (amended): a ChatGPT conversation built from the mapping branch
(which sorts nodes by `create_time` before assembling) satisfies
`started_at ≤ ended_at` whenever both are present; connectors that take
timestamps in source order (Gemini, Codebuff, the ChatGPT flat branch) do
not enforce this (see the counterexample). -/
theorem c9_amended_thm (path : String) (v : J) (since : Option Int)
    (c : NormalizedConversation)
    (hmap : ((ChatGpt.mapPhase v since).2.2).isEmpty = false)
    (h : ChatGpt.parseFile path v since = some c)
    (a b : Int) (ha : c.started_at = some a) (hb : c.ended_at = some b) :
    a ≤ b := by
  simp only [ChatGpt.parseFile, hmap] at h
  simp at h
  rcases h with ⟨-, rfl⟩
  cases hmp : (v.get "mapping").bind J.as_obj with
  | none => simp [ChatGpt.mapPhase, hmp] at hmap
  | some mapping =>
    simp only [ChatGpt.mapPhase, hmp] at ha hb
    exact buildMap_mono since
      (sortLe ChatGpt.nodeLeB (ChatGpt.collectNodes mapping)) none none []
      (pairwise_sortLe ChatGpt.nodeLeB nodeLeB_total nodeLeB_trans _)
      (by simp) (by simp) a b ha hb

set_option maxRecDepth 10000 in
/-- Witness for C9 (amended) at a mapping stored out of order. -/
theorem c9_witness : (1600000000000 : Int) ≤ 1700000000000 :=
  c9_amended_thm "conv.json" cgMapVal none cgMapConv rfl rfl
    1600000000000 1700000000000 rfl rfl
